import Mathlib

/-
Verification of the orchestration engine of auto-claude-docker
(apps/orchestrator/src/index.ts and feedback.ts), as a shallow embedding:
pure fragments become Lean functions, the stateful pieces (feedback queue,
resource-manager id set, the autonomous loop) become explicit state passing
driven by lists of externally observed events (subprocess outcomes, feedback
arrivals). Machine integers in the source are plain JS numbers used as
counters and millisecond durations, embedded as Nat.
-/

/-! ## String primitives

The source classifies text with JS `String.prototype.includes` and
`toLowerCase`. `strIncludes s pat` is substring occurrence; `lowerString`
lowers the ASCII letters, which is all `toLowerCase` does on the ASCII-only
match patterns involved. -/

/-- JS `s.includes(pat)`: `pat` occurs contiguously inside `s` (case sensitive). -/
def strIncludes (s pat : String) : Bool := decide (pat.toList <:+: s.toList)

/-- JS `s.toLowerCase()` on the ASCII range (`Char.toLower` lowers only A-Z). -/
def lowerString (s : String) : String := String.mk (s.toList.map Char.toLower)

/-! ## Feedback store (feedback.ts)

`FeedbackStore` holds `queue: FeedbackItem[]`; `enqueue` pushes one item,
`dequeueAll` copies the queue and replaces it with `[]` in one synchronous
step. The queue is threaded explicitly as a `List`. -/

structure FeedbackAttachment where
  name : String
  url : String
deriving DecidableEq, Repr

structure FeedbackItem where
  id : String
  timestamp : String
  authorTag : String
  content : String
  attachments : List FeedbackAttachment
deriving DecidableEq, Repr

/-- feedback.ts 29-36: `this.queue.push(feedback)`. -/
def enqueue (queue : List FeedbackItem) (item : FeedbackItem) : List FeedbackItem :=
  queue ++ [item]

/-- feedback.ts 38-42: `const items = [...this.queue]; this.queue = []; return items`. -/
def dequeueAll (queue : List FeedbackItem) : List FeedbackItem × List FeedbackItem :=
  (queue, [])

/-- index.ts 162-166: the line rendered for one feedback item. -/
def formatFeedbackItem (f : FeedbackItem) : String :=
  "- From " ++ f.authorTag ++ " at " ++ f.timestamp ++ ": " ++ f.content ++
    (if f.attachments.length > 0 then
      "\n  Attachments:\n" ++
        String.intercalate "\n"
          (f.attachments.map fun a => "    - " ++ a.name ++ ": " ++ a.url)
    else "")

/-- index.ts 153-174 `promptWithFeedback`: drains the queue; when items were
pending, appends the high-priority feedback block to the prompt. Returns the
prompt together with the queue left behind. -/
def promptWithFeedback (originalPrompt : String) (queue : List FeedbackItem) :
    String × List FeedbackItem :=
  let drained := dequeueAll queue
  if drained.1.length = 0 then (originalPrompt, drained.2)
  else
    (originalPrompt ++
      "\n\nAdditionally, incorporate the following HIGH-PRIORITY external feedback before proceeding. Treat this feedback as top priority requirements and constraints. If it contradicts previous plans, adapt accordingly:\n" ++
      String.intercalate "\n" (drained.1.map formatFeedbackItem),
     drained.2)

/-! ## Agent turns and the testing-phase routing (index.ts 145-151, 992-1026) -/

structure ClaudeTurn where
  type : String
  result : Option String := none
  session_id : Option String := none
  is_error : Option Bool := none
deriving DecidableEq, Repr

/-- index.ts 1012-1015: `turns.map(t => t.result).join(' ').toLowerCase()`
(JS `join` renders an `undefined` element as the empty string). -/
def responseOf (turns : List ClaudeTurn) : String :=
  lowerString (String.intercalate " " (turns.map fun t => t.result.getD ""))

/-- index.ts 1016-1017: `response.includes('fail') || response.includes('error')
|| response.includes('critical')`. -/
def hasFailures (turns : List ClaudeTurn) : Bool :=
  strIncludes (responseOf turns) "fail" || strIncludes (responseOf turns) "error" ||
    strIncludes (responseOf turns) "critical"

inductive Phase
  | planning
  | implementation
  | testing
  | critique
  | completion
  | error
deriving DecidableEq, Repr

/-- index.ts 1019-1025: the phase `executeTestingPhase` leaves behind. -/
def executeTestingPhaseNext (turns : List ClaudeTurn) : Phase :=
  if hasFailures turns then Phase.critique else Phase.completion

/-- The spec-level failure indicator: one of the three (lower-case) marker
strings occurs in the scanned text. -/
def FailureIndicator (s : String) : Prop :=
  "fail".toList <:+: s.toList ∨ "error".toList <:+: s.toList ∨
    "critical".toList <:+: s.toList

theorem hasFailures_iff (turns : List ClaudeTurn) :
    hasFailures turns = true ↔ FailureIndicator (responseOf turns) := by
  unfold hasFailures FailureIndicator strIncludes
  simp only [Bool.or_eq_true, decide_eq_true_eq]
  exact or_assoc

/-- C4 For every completed testing-phase invocation, the next phase is computed
by a case-insensitive substring scan of the joined AgentTurn result texts:
`critique` exactly when the lowered text contains "fail", "error" or
"critical", `completion` otherwise; in particular "Critical failure detected"
routes to `critique` and "All tests passed" routes to `completion`. -/
theorem testing_routing_failure_indicators : ∀ turns : List ClaudeTurn,
    (executeTestingPhaseNext turns = Phase.critique ↔ FailureIndicator (responseOf turns)) ∧
    (executeTestingPhaseNext turns = Phase.completion ↔ ¬ FailureIndicator (responseOf turns)) ∧
    executeTestingPhaseNext [{ type := "result", result := some "Critical failure detected" }] =
      Phase.critique ∧
    executeTestingPhaseNext [{ type := "result", result := some "All tests passed" }] =
      Phase.completion := by
  intro turns
  have hiff := hasFailures_iff turns
  refine ⟨?_, ?_, by decide, by decide⟩
  · constructor
    · intro h
      by_cases hf : hasFailures turns = true
      · exact hiff.mp hf
      · simp [executeTestingPhaseNext, hf] at h
    · intro h
      simp [executeTestingPhaseNext, hiff.mpr h]
  · constructor
    · intro h hFI
      simp [executeTestingPhaseNext, hiff.mpr hFI] at h
    · intro h
      have hf : hasFailures turns = false := by
        cases hfb : hasFailures turns
        · rfl
        · exact absurd (hiff.mp hfb) h
      simp [executeTestingPhaseNext, hf]

/-! ## Exactly-once feedback delivery (C8)

A run of the store is driven by an operation list: external arrivals
(`enq`) interleaved with prompt-build drains (`drain`). `runFeedbackOps`
collects, in order, the batch each drain returned, together with the queue
left at the end. -/

inductive FbOp
  | enq (item : FeedbackItem)
  | drain
deriving Repr

def runFeedbackOps (queue : List FeedbackItem) :
    List FbOp → List (List FeedbackItem) × List FeedbackItem
  | [] => ([], queue)
  | FbOp.enq item :: rest => runFeedbackOps (enqueue queue item) rest
  | FbOp.drain :: rest =>
    let drained := dequeueAll queue
    let tail := runFeedbackOps drained.2 rest
    (drained.1 :: tail.1, tail.2)

/-- The items an operation list enqueues, in order. -/
def enqueuedOf : List FbOp → List FeedbackItem
  | [] => []
  | FbOp.enq item :: rest => item :: enqueuedOf rest
  | FbOp.drain :: rest => enqueuedOf rest

theorem runFeedbackOps_conservation (ops : List FbOp) : ∀ queue : List FeedbackItem,
    (runFeedbackOps queue ops).1.flatten ++ (runFeedbackOps queue ops).2 =
      queue ++ enqueuedOf ops := by
  induction ops with
  | nil => intro queue; simp [runFeedbackOps, enqueuedOf]
  | cons op rest ih =>
    intro queue
    cases op with
    | enq item =>
      simp only [runFeedbackOps, enqueuedOf, enqueue]
      rw [ih]
      simp
    | drain =>
      have h := ih []
      simp only [List.nil_append] at h
      simp only [runFeedbackOps, enqueuedOf, dequeueAll, List.flatten_cons,
        List.append_assoc, h]

/-- C8 Draining the feedback queue is an atomic read-and-clear delivering every
item exactly once: `dequeueAll` returns the whole queue and leaves it empty;
over any operation sequence from the empty queue, the concatenation of all
drain batches followed by the final queue is exactly the enqueued items in
order (so no item is delivered twice or lost); and after a single enqueue two
sequential drains return the item once and then the empty batch. -/
theorem feedback_drain_exactly_once : ∀ (ops : List FbOp),
    (runFeedbackOps [] ops).1.flatten ++ (runFeedbackOps [] ops).2 = enqueuedOf ops ∧
    (∀ queue : List FeedbackItem, dequeueAll queue = (queue, [])) ∧
    (∀ item : FeedbackItem,
      (runFeedbackOps [] [FbOp.enq item, FbOp.drain, FbOp.drain]).1 = [[item], []]) := by
  intro ops
  refine ⟨?_, fun _ => rfl, fun item => rfl⟩
  have h := runFeedbackOps_conservation ops []
  simpa using h

/-! ## Operation metrics (index.ts 32-38, 717-751)

`executePhase` increments `totalOperations` on entry and then exactly one of
`successfulOperations` / `failedOperations` depending on how the wrapped
operation settles; no other code path of the orchestrator writes these
counters (the only other assignments are the zero initialisations). -/

structure Metrics where
  totalOperations : Nat
  successfulOperations : Nat
  failedOperations : Nat
deriving DecidableEq, Repr

def initialMetrics : Metrics :=
  { totalOperations := 0, successfulOperations := 0, failedOperations := 0 }

/-- The metrics updates of one `executePhase` call (index.ts 723, 734, 738),
`succeeded` saying whether the wrapped operation settled successfully. -/
def executePhaseMetrics (m : Metrics) (succeeded : Bool) : Metrics :=
  let m1 : Metrics := { m with totalOperations := m.totalOperations + 1 }
  if succeeded then { m1 with successfulOperations := m1.successfulOperations + 1 }
  else { m1 with failedOperations := m1.failedOperations + 1 }

theorem count_true_add_count_false (outcomes : List Bool) :
    outcomes.count true + outcomes.count false = outcomes.length := by
  induction outcomes with
  | nil => simp
  | cons b rest ih => cases b <;> simp [List.count_cons] <;> omega

theorem executePhaseMetrics_total (m : Metrics) (b : Bool) :
    (executePhaseMetrics m b).totalOperations = m.totalOperations + 1 := by
  cases b <;> rfl

theorem executePhaseMetrics_succ (m : Metrics) (b : Bool) :
    (executePhaseMetrics m b).successfulOperations =
      m.successfulOperations + (if b then 1 else 0) := by
  cases b <;> rfl

theorem executePhaseMetrics_failed (m : Metrics) (b : Bool) :
    (executePhaseMetrics m b).failedOperations =
      m.failedOperations + (if b then 0 else 1) := by
  cases b <;> rfl

theorem executePhaseMetrics_foldl (outcomes : List Bool) : ∀ m : Metrics,
    (outcomes.foldl executePhaseMetrics m).totalOperations =
        m.totalOperations + outcomes.length ∧
    (outcomes.foldl executePhaseMetrics m).successfulOperations =
        m.successfulOperations + outcomes.count true ∧
    (outcomes.foldl executePhaseMetrics m).failedOperations =
        m.failedOperations + outcomes.count false := by
  induction outcomes with
  | nil => intro m; simp
  | cons b rest ih =>
    intro m
    obtain ⟨h1, h2, h3⟩ := ih (executePhaseMetrics m b)
    rw [List.foldl_cons]
    refine ⟨?_, ?_, ?_⟩
    · rw [h1, executePhaseMetrics_total, List.length_cons]; omega
    · rw [h2, executePhaseMetrics_succ]
      cases b <;> simp [List.count_cons] <;> omega
    · rw [h3, executePhaseMetrics_failed]
      cases b <;> simp [List.count_cons] <;> omega

/-- C10 Starting from all-zero metrics, after any sequence of `executePhase`
calls the equation `totalOperations = successfulOperations + failedOperations`
holds: each call adds one to `totalOperations` and one to exactly one of the
other two counters (successes count successes, failures count failures). -/
theorem metrics_counters_invariant : ∀ outcomes : List Bool,
    (outcomes.foldl executePhaseMetrics initialMetrics).totalOperations =
        (outcomes.foldl executePhaseMetrics initialMetrics).successfulOperations +
        (outcomes.foldl executePhaseMetrics initialMetrics).failedOperations ∧
    (outcomes.foldl executePhaseMetrics initialMetrics).totalOperations = outcomes.length ∧
    (outcomes.foldl executePhaseMetrics initialMetrics).successfulOperations =
        outcomes.count true ∧
    (outcomes.foldl executePhaseMetrics initialMetrics).failedOperations =
        outcomes.count false ∧
    (∀ (m : Metrics) (b : Bool),
      (executePhaseMetrics m b).totalOperations = m.totalOperations + 1 ∧
      (executePhaseMetrics m b).successfulOperations =
          m.successfulOperations + (if b then 1 else 0) ∧
      (executePhaseMetrics m b).failedOperations =
          m.failedOperations + (if b then 0 else 1)) := by
  intro outcomes
  obtain ⟨h1, h2, h3⟩ := executePhaseMetrics_foldl outcomes initialMetrics
  have e1 : initialMetrics.totalOperations = 0 := rfl
  have e2 : initialMetrics.successfulOperations = 0 := rfl
  have e3 : initialMetrics.failedOperations = 0 := rfl
  rw [e1] at h1; rw [e2] at h2; rw [e3] at h3
  have hcount := count_true_add_count_false outcomes
  refine ⟨by omega, by omega, by omega, by omega, ?_⟩
  intro m b
  exact ⟨executePhaseMetrics_total m b, executePhaseMetrics_succ m b,
    executePhaseMetrics_failed m b⟩

/-! ## Resource manager (index.ts 97-143)

`activeOperations` is a JS `Set<string>`, embedded as a duplicate-free
`List String`: `setAdd` is `Set.add` (no-op when present), `setRemove` is
`Set.delete` (on a set each id occurs at most once, so removing every
occurrence is the same operation). An operation is characterised by how long
it runs and whether it resolves or rejects; the timer of the race fires when
the operation does not settle strictly before `timeoutMs` (the race's timer
is registered first, so it wins ties). -/

def setAdd (active : List String) (opId : String) : List String :=
  if opId ∈ active then active else active ++ [opId]

def setRemove (active : List String) (opId : String) : List String :=
  active.filter (fun x => x ≠ opId)

inductive OpOutcome
  | resolves
  | rejects
deriving DecidableEq, Repr

structure OpSpec where
  durationMs : Nat
  outcome : OpOutcome
deriving DecidableEq, Repr

inductive ExecResult
  | concurrencyExceeded
  | timedOut
  | completed (outcome : OpOutcome)
deriving DecidableEq, Repr

/-- index.ts 101-124 `executeOperation`: reject when the in-flight count is at
or above the cap; otherwise register the id, race the operation against the
timeout timer, and unregister the id in the `finally` on every exit path.
Returns the settlement together with the in-flight set afterwards. -/
def executeOperation (maxConcurrentOps : Nat) (active : List String) (opId : String)
    (op : OpSpec) (timeoutMs : Nat) : ExecResult × List String :=
  if maxConcurrentOps ≤ active.length then (ExecResult.concurrencyExceeded, active)
  else
    let active1 := setAdd active opId
    let res :=
      if timeoutMs ≤ op.durationMs then ExecResult.timedOut
      else ExecResult.completed op.outcome
    (res, setRemove active1 opId)

/-- C5 `executeOperation` fails with concurrency-exceeded exactly when the
in-flight count is at or above the cap before starting, in which case the
in-flight set is untouched; otherwise it races the operation against the
timeout (timing out exactly when the operation does not settle before
`timeoutMs`) and on every exit path (resolve, reject, timeout) the id is gone
from the in-flight set, all other ids being kept. -/
theorem executeOperation_contract :
    ∀ (maxOps : Nat) (active : List String) (opId : String) (op : OpSpec) (timeoutMs : Nat),
    ((executeOperation maxOps active opId op timeoutMs).1 = ExecResult.concurrencyExceeded ↔
        maxOps ≤ active.length) ∧
    (maxOps ≤ active.length →
      (executeOperation maxOps active opId op timeoutMs).2 = active) ∧
    (active.length < maxOps →
      ((executeOperation maxOps active opId op timeoutMs).1 = ExecResult.timedOut ↔
          timeoutMs ≤ op.durationMs) ∧
      (∀ x : String,
        x ∈ (executeOperation maxOps active opId op timeoutMs).2 ↔ x ∈ active ∧ x ≠ opId)) := by
  intro maxOps active opId op timeoutMs
  by_cases hc : maxOps ≤ active.length
  · refine ⟨by simp [executeOperation, hc], fun _ => by simp [executeOperation, hc],
      fun hlt => absurd hc (by omega)⟩
  · have hlt : active.length < maxOps := by omega
    refine ⟨?_, fun h => absurd h hc, fun _ => ⟨?_, ?_⟩⟩
    · constructor
      · intro h
        by_cases ht : timeoutMs ≤ op.durationMs <;> simp [executeOperation, hc, ht] at h
      · intro h; omega
    · by_cases ht : timeoutMs ≤ op.durationMs <;> simp [executeOperation, hc, ht]
    · intro x
      by_cases hmem : opId ∈ active <;>
        by_cases ht : timeoutMs ≤ op.durationMs <;>
        simp [executeOperation, hc, ht, setAdd, setRemove, hmem, List.mem_filter]

/-! ## Rate-limit classification of a failed invocation (index.ts 651-667)

On a nonzero exit, `runClaude` takes `stderr || stdout || 'No error output
available'` as the diagnostic text and re-classifies the failure as
rate-limited when that text `includes` one of three case-sensitive
patterns. -/

/-- index.ts 652: `const errorMsg = stderr || stdout || 'No error output available'`. -/
def combinedErrorOutput (stderr stdout : String) : String :=
  if stderr ≠ "" then stderr else if stdout ≠ "" then stdout else "No error output available"

/-- index.ts 656-660: `errorMsg.includes('rate limit') ||
errorMsg.includes('Rate limit') || errorMsg.includes('too many requests')`. -/
def isRateLimitOutput (errorMsg : String) : Bool :=
  strIncludes errorMsg "rate limit" || strIncludes errorMsg "Rate limit" ||
    strIncludes errorMsg "too many requests"

/-- C7 counterexample: the claim says any capitalization of the phrases
triggers the rate-limited classification, naming "RATE LIMIT" and
"Too Many Requests"; the code's match is case sensitive and classifies both
as generic failures. -/
theorem uppercase_rate_limit_not_classified_cex :
    isRateLimitOutput (combinedErrorOutput "RATE LIMIT: quota exhausted" "") = false ∧
    isRateLimitOutput (combinedErrorOutput "Too Many Requests" "") = false := by
  constructor <;> decide

/-- C7 amended: a failed invocation is re-classified as rate-limited exactly
when the combined stderr/stdout diagnostic contains one of the case-sensitive
substrings "rate limit", "Rate limit" or "too many requests"; the three
literal patterns do trigger it, while "RATE LIMIT" and "TOO MANY REQUESTS" do
not. -/
theorem rate_limit_matching_case_sensitive : ∀ stderr stdout : String,
    (isRateLimitOutput (combinedErrorOutput stderr stdout) = true ↔
      ("rate limit".toList <:+: (combinedErrorOutput stderr stdout).toList ∨
       "Rate limit".toList <:+: (combinedErrorOutput stderr stdout).toList ∨
       "too many requests".toList <:+: (combinedErrorOutput stderr stdout).toList)) ∧
    isRateLimitOutput "rate limit reached" = true ∧
    isRateLimitOutput "Rate limit hit (600 messages per 5 hours)" = true ∧
    isRateLimitOutput "HTTP 429: too many requests" = true ∧
    isRateLimitOutput "RATE LIMIT" = false ∧
    isRateLimitOutput "TOO MANY REQUESTS" = false := by
  intro stderr stdout
  refine ⟨?_, by decide, by decide, by decide, by decide, by decide⟩
  unfold isRateLimitOutput strIncludes
  simp only [Bool.or_eq_true, decide_eq_true_eq]
  exact or_assoc

/-! ## Session persistence load (index.ts 437-483)

The stored `session.json` record is parsed JSON: any field can be absent, so
each is embedded as an `Option`. The load path (452-461) spreads the record
and patches exactly three fields: `goal` is overwritten with the current
goal, `errors` defaults to `[]`, `metrics` defaults to the zeroed counters.
Everything else is whatever the record held, absent fields staying absent. -/

structure ErrorEntry where
  timestamp : String
  phase : String
  error : String
  recovered : Bool
deriving DecidableEq, Repr

structure StoredSession where
  sessionId : Option String := none
  goal : Option String := none
  phase : Option Phase := none
  iteration : Option Nat := none
  maxIterations : Option Nat := none
  startTime : Option String := none
  errors : Option (List ErrorEntry) := none
  metrics : Option Metrics := none
deriving DecidableEq, Repr

/-- The runtime shape `{...state, goal, errors: state.errors || [], metrics:
state.metrics || {...}}` produces: the three patched fields are always
present, the rest only when the stored record carried them. -/
structure LoadedSession where
  sessionId : Option String
  goal : String
  phase : Option Phase
  iteration : Option Nat
  maxIterations : Option Nat
  startTime : Option String
  errors : List ErrorEntry
  metrics : Metrics
deriving DecidableEq, Repr

/-- index.ts 452-461: the resumed-session branch of `loadSessionState`. -/
def loadSessionState (currentGoal : String) (state : StoredSession) : LoadedSession :=
  { sessionId := state.sessionId
    goal := currentGoal
    phase := state.phase
    iteration := state.iteration
    maxIterations := state.maxIterations
    startTime := state.startTime
    errors := state.errors.getD []
    metrics := state.metrics.getD initialMetrics }

/-- C9 counterexample: the claim says every missing field, including `phase`,
`iteration`, `maxIterations` and `startTime`, defaults to its initial value
(planning / 0 / 12 / the current time), yielding a fully populated state; on
a record missing them all, the loaded state leaves each of them absent. -/
theorem missing_fields_not_defaulted_cex :
    (loadSessionState "g" {}).phase = none ∧
    (loadSessionState "g" {}).iteration = none ∧
    (loadSessionState "g" {}).maxIterations = none ∧
    (loadSessionState "g" {}).startTime = none := by
  decide

/-- C9 amended: loading an existing record is only partially
forward-compatible: `errors` defaults to `[]` and `metrics` to the zeroed
counters when missing, and `goal` is always overwritten with the current
goal, but `sessionId`, `phase`, `iteration`, `maxIterations` and `startTime`
are taken verbatim from the stored record and a field missing there remains
missing in the loaded state. -/
theorem load_session_partial_defaults : ∀ (g : String) (st : StoredSession),
    (loadSessionState g st).goal = g ∧
    (st.errors = none → (loadSessionState g st).errors = []) ∧
    (st.metrics = none → (loadSessionState g st).metrics = initialMetrics) ∧
    (∀ es, st.errors = some es → (loadSessionState g st).errors = es) ∧
    (∀ ms, st.metrics = some ms → (loadSessionState g st).metrics = ms) ∧
    (loadSessionState g st).sessionId = st.sessionId ∧
    (loadSessionState g st).phase = st.phase ∧
    (loadSessionState g st).iteration = st.iteration ∧
    (loadSessionState g st).maxIterations = st.maxIterations ∧
    (loadSessionState g st).startTime = st.startTime := by
  intro g st
  refine ⟨rfl, ?_, ?_, ?_, ?_, rfl, rfl, rfl, rfl, rfl⟩
  · intro h; simp [loadSessionState, h]
  · intro h; simp [loadSessionState, h]
  · intro es h; simp [loadSessionState, h]
  · intro ms h; simp [loadSessionState, h]

/-! ## Phase-specific timeouts and the internal kill timer (C6)

The dispatch (index.ts 886-916) hands the Resource Manager `timeoutMs` for
planning/critique (and completion), `timeoutMs * 2` for implementation and
`timeoutMs * 1.5` for testing. But `runClaude` (index.ts 622-625) also arms
its own timer at the flat `this.timeoutMs` and SIGKILLs the subprocess when
it fires, whatever the phase. The model races the three deadlines: the
subprocess would exit on its own at `durationMs`; the runner's internal
timer fires at `timeoutMs`; the Resource Manager's race timer fires at the
phase timeout (registered before the operation starts, so it wins ties). -/

/-- index.ts 888-908: the timeout `executePhase` passes to the Resource
Manager per phase (`timeoutMs * 1.5` is exact in JS floats; Nat division
truncates the half millisecond for odd `timeoutMs`). The `error` phase does
not go through this dispatch. -/
def phaseTimeoutMs (timeoutMs : Nat) : Phase → Nat
  | Phase.implementation => timeoutMs * 2
  | Phase.testing => timeoutMs * 3 / 2
  | _ => timeoutMs

inductive PhaseRunResult
  | success
  | rmTimedOut
  | processKilled
  | processFailed
deriving DecidableEq, Repr

/-- The moment the `runClaude` promise settles: the subprocess exit at
`durationMs`, cut short by the internal kill timer at `timeoutMs`. -/
def runClaudeSettleMs (timeoutMs durationMs : Nat) : Nat := min durationMs timeoutMs

/-- One phase operation as the Resource Manager race resolves it: its own
timer at the phase-specific deadline against `runClaude`, which itself kills
the subprocess at the flat standard `timeoutMs` (index.ts 622-625). `ok`
says whether the subprocess, left alone, would have exited cleanly with
parseable output. -/
def runPhaseOperation (timeoutMs : Nat) (ph : Phase) (durationMs : Nat) (ok : Bool) :
    PhaseRunResult :=
  if phaseTimeoutMs timeoutMs ph ≤ runClaudeSettleMs timeoutMs durationMs then
    PhaseRunResult.rmTimedOut
  else if timeoutMs ≤ durationMs then PhaseRunResult.processKilled
  else if ok then PhaseRunResult.success else PhaseRunResult.processFailed

/-- C6 counterexample: with the default standard timeout (300000 ms), an
implementation-phase invocation that would finish cleanly after 450000 ms —
longer than the standard timeout, well under the 2x phase timeout — is
SIGKILLed by the runner's internal timer instead of completing successfully,
contradicting the claim. -/
theorem implementation_within_double_timeout_killed_cex :
    runPhaseOperation 300000 Phase.implementation 450000 true =
      PhaseRunResult.processKilled ∧
    runPhaseOperation 300000 Phase.implementation 450000 true ≠
      PhaseRunResult.success := by
  constructor <;> decide

/-- C6 amended: the Resource Manager does wrap each phase with the
phase-specific timeout (standard for planning and critique, 2x for
implementation, 1.5x for testing), but `runClaude` additionally arms an
internal kill timer at the flat standard timeout for every invocation, so
the effective wall-clock bound is the standard timeout in every phase: an
implementation invocation succeeds exactly when it finishes cleanly before
the standard timeout, and one running at least that long is killed. -/
theorem phase_timeouts_effective_bound :
    ∀ (timeoutMs durationMs : Nat) (ok : Bool),
    phaseTimeoutMs timeoutMs Phase.planning = timeoutMs ∧
    phaseTimeoutMs timeoutMs Phase.critique = timeoutMs ∧
    phaseTimeoutMs timeoutMs Phase.implementation = timeoutMs * 2 ∧
    phaseTimeoutMs timeoutMs Phase.testing = timeoutMs * 3 / 2 ∧
    (0 < timeoutMs →
      (runPhaseOperation timeoutMs Phase.implementation durationMs ok =
          PhaseRunResult.success ↔ durationMs < timeoutMs ∧ ok = true) ∧
      (timeoutMs ≤ durationMs →
        runPhaseOperation timeoutMs Phase.implementation durationMs ok =
          PhaseRunResult.processKilled)) := by
  intro timeoutMs durationMs ok
  refine ⟨rfl, rfl, rfl, rfl, ?_⟩
  intro hpos
  have hrace : ¬ phaseTimeoutMs timeoutMs Phase.implementation ≤
      runClaudeSettleMs timeoutMs durationMs := by
    simp only [phaseTimeoutMs, runClaudeSettleMs]
    omega
  constructor
  · by_cases hd : timeoutMs ≤ durationMs
    · simp [runPhaseOperation, hrace, hd]
    · cases ok <;> simp [runPhaseOperation, hrace, hd] <;> omega
  · intro hd
    simp [runPhaseOperation, hrace, hd]

/-! ## Error-recovery policy (index.ts 1073-1159)

`recoverFromError` first short-circuits when the failure itself is a rate
limit (sleep 30 minutes, recovered). Otherwise it loops `while (retries <
maxRetries)`, making one recovery invocation per pass; an invocation either
succeeds (recovered) or throws with some message. In the catch, `retries++`
runs FIRST; only then is the message tested for a rate limit — that branch
sleeps 30 minutes and `continue`s, the others wait the exponential backoff
when budget remains. A scripted run is driven by the list of attempt
outcomes; `waitsMs` records the sleeps taken, in order. -/

/-- index.ts 1077-1081: the top-level rate-limit test on the failure message. -/
def isRateLimitErrorMsg (errorMsg : String) : Bool :=
  strIncludes errorMsg "RATE_LIMIT" || strIncludes errorMsg "rate limit" ||
    strIncludes errorMsg "too many requests"

/-- index.ts 1140: the rate-limit test applied to a failed recovery attempt
(note: no "too many requests" here). -/
def isRecoveryRateLimit (msg : String) : Bool :=
  strIncludes msg "RATE_LIMIT" || strIncludes msg "rate limit"

inductive RecoveryOutcome
  | recoverySucceeds
  | recoveryFails (msg : String)
deriving DecidableEq, Repr

structure RecoveryRun where
  recovered : Bool
  waitsMs : List Nat
deriving DecidableEq, Repr

/-- index.ts 1108-1155: the retry loop, driven by the scripted outcome of
each recovery invocation (an empty script while budget remains ends the run
unrecovered). `retries + 1` is the value after the `retries++` that opens
the catch block; the backoff is `2^retries * 1000` read after that
increment, taken only when budget remains. -/
def recoveryLoop (maxRetries : Nat) : Nat → List Nat → List RecoveryOutcome → RecoveryRun
  | retries, waits, outcomes =>
    if maxRetries ≤ retries then { recovered := false, waitsMs := waits.reverse }
    else
      match outcomes with
      | [] => { recovered := false, waitsMs := waits.reverse }
      | RecoveryOutcome.recoverySucceeds :: _ => { recovered := true, waitsMs := waits.reverse }
      | RecoveryOutcome.recoveryFails msg :: rest =>
        if isRecoveryRateLimit msg then
          recoveryLoop maxRetries (retries + 1) (30 * 60 * 1000 :: waits) rest
        else if retries + 1 < maxRetries then
          recoveryLoop maxRetries (retries + 1) (2 ^ (retries + 1) * 1000 :: waits) rest
        else
          recoveryLoop maxRetries (retries + 1) waits rest

/-- index.ts 1073-1159 `recoverFromError`. -/
def recoverFromError (maxRetries : Nat) (errorMsg : String)
    (outcomes : List RecoveryOutcome) : RecoveryRun :=
  if isRateLimitErrorMsg errorMsg then { recovered := true, waitsMs := [30 * 60 * 1000] }
  else recoveryLoop maxRetries 0 [] outcomes

/-- A scripted recovery attempt that fails with the tagged rate-limit message
`runClaude` rejects with (index.ts 665). -/
def rateLimitedAttempt : RecoveryOutcome :=
  RecoveryOutcome.recoveryFails "RATE_LIMIT: Claude exited with code 1"

/-- C3 evaluation at the failing input: `maxRetries = 3`, a non-rate-limited
phase failure, then three rate-limited recovery failures followed by an
attempt that would succeed. Each rate-limited failure takes the 30-minute
cooldown, yet `retries++` has already consumed the budget, so the loop exits
unrecovered and the fourth (successful) attempt is never made — the claim
says the budget survives any number of rate-limited failures. -/
theorem rate_limited_recovery_consumes_budget :
    recoverFromError 3 "Claude exited with code 1: spawn failure"
        [rateLimitedAttempt, rateLimitedAttempt, rateLimitedAttempt,
         RecoveryOutcome.recoverySucceeds] =
      { recovered := false, waitsMs := [1800000, 1800000, 1800000] } ∧
    recoverFromError 3 "Claude exited with code 1: spawn failure"
        [RecoveryOutcome.recoverySucceeds] =
      { recovered := true, waitsMs := [] } := by
  constructor <;> decide

/-! ## Interrupt-and-restart of a live invocation (index.ts 627-644)

`runClaude`'s close handler: when `shouldInterruptForFeedback` is set (the
Discord handler enqueued the items, set the flag and killed the subprocess,
index.ts 794, 822-826), it clears the flag and re-invokes
`this.runClaude(args, input || '')` — the same argument list and the very
same `input` string. A run is scripted by what each successive subprocess
attempt observed at close time. -/

inductive AttemptClose
  | completes (turns : List ClaudeTurn)
  | interruptedBy (items : List FeedbackItem)
deriving Repr

/-- What one spawn was given: its argument list, its stdin prompt, and the
feedback queue standing at the moment it was spawned. -/
structure AttemptRecord where
  args : List String
  prompt : String
  queueAtSpawn : List FeedbackItem
deriving DecidableEq, Repr

/-- The sequence of spawns one `runClaude` call performs, with the feedback
queue threaded through: an interrupted attempt enqueues the arrived items
and restarts with the unchanged `args` and `input` (index.ts 640); nothing
on this path drains the queue. Returns the spawn records and the final
queue. -/
def runClaudeAttempts (args : List String) (input : String) (queue : List FeedbackItem) :
    List AttemptClose → List AttemptRecord × List FeedbackItem
  | [] => ([{ args := args, prompt := input, queueAtSpawn := queue }], queue)
  | AttemptClose.completes _ :: _ =>
      ([{ args := args, prompt := input, queueAtSpawn := queue }], queue)
  | AttemptClose.interruptedBy items :: rest =>
    let tail := runClaudeAttempts args input (items.foldl enqueue queue) rest
    ({ args := args, prompt := input, queueAtSpawn := queue } :: tail.1, tail.2)

/-- The feedback that preempts the scripted implementation invocation. -/
def pgFeedback : FeedbackItem :=
  { id := "1", timestamp := "2025-01-01T00:00:00.000Z", authorTag := "reviewer#1",
    content := "Use PostgreSQL instead", attachments := [] }

/-- The original prompt of the scripted implementation invocation (built by
the phase handler before the subprocess was spawned, with the queue then
empty). -/
def implPrompt : String := "Implement the next set of tasks"

set_option maxRecDepth 4096 in
/-- C2 evaluation at the failing input: an implementation invocation is
preempted once by `pgFeedback` and then runs to completion. The runner does
re-invoke once without surfacing a failure, with the same arguments — but
the restarted spawn is fed the byte-identical original prompt even though
the feedback is sitting in the queue at that moment: the feedback text does
not occur in the restart prompt, while rebuilding the prompt through
`promptWithFeedback` at that point would have produced a different one. -/
theorem restart_reuses_original_prompt :
    (runClaudeAttempts ["--resume", "sess-1"] implPrompt []
        [AttemptClose.interruptedBy [pgFeedback], AttemptClose.completes []]).1 =
      [{ args := ["--resume", "sess-1"], prompt := implPrompt, queueAtSpawn := [] },
       { args := ["--resume", "sess-1"], prompt := implPrompt,
         queueAtSpawn := [pgFeedback] }] ∧
    strIncludes implPrompt pgFeedback.content = false ∧
    (promptWithFeedback implPrompt [pgFeedback]).1 ≠ implPrompt ∧
    strIncludes (promptWithFeedback implPrompt [pgFeedback]).1 pgFeedback.content = true := by
  refine ⟨rfl, by decide, ?_, by decide⟩
  decide

/-! ## The autonomous loop's phase transitions (index.ts 874-937)

One `while` pass is driven by how the dispatched phase operation settles:
it succeeds (producing the parsed turns — which only the testing handler
inspects), or it fails and `recoverFromError` either recovers (the loop
continues with `phase` untouched and `iteration` not incremented) or does
not (the error propagates and the run aborts). The loop also exits when the
shutdown flag was observed at the top of a pass. A trace is the sequence of
states the `phase`/`iteration` fields pass through; when the loop exits at
the iteration cap the forced `phase = 'completion'` (index.ts 932-936) is
the final state. Nothing in the loop ever assigns `phase = 'error'`; the
`error` case only occurs when a stored session is resumed in it, and a
successful recovery there leaves the phase unchanged (index.ts 910-915). -/

structure LoopState where
  phase : Phase
  iteration : Nat
  maxIterations : Nat
deriving DecidableEq, Repr

inductive PhaseOutcome
  | success (turns : List ClaudeTurn)
  | failure (recovered : Bool)
  | shutdown
deriving Repr

/-- The phase each handler assigns on success: planning 964, implementation
988, testing 1019-1025, critique 1048; the error case leaves it unchanged,
and the completion handler returns out of the loop before this applies. -/
def nextPhaseOnSuccess (ph : Phase) (turns : List ClaudeTurn) : Phase :=
  match ph with
  | Phase.planning => Phase.implementation
  | Phase.implementation => Phase.testing
  | Phase.testing => executeTestingPhaseNext turns
  | Phase.critique => Phase.implementation
  | Phase.error => Phase.error
  | Phase.completion => Phase.completion

/-- The state after a successful pass: the handler's phase assignment
followed by `this.sessionState.iteration++` (index.ts 918). -/
def successState (s : LoopState) (turns : List ClaudeTurn) : LoopState :=
  { s with phase := nextPhaseOnSuccess s.phase turns, iteration := s.iteration + 1 }

/-- index.ts 932-936: the forced completion pass once the cap is reached. -/
def forcedCompletion (s : LoopState) : LoopState := { s with phase := Phase.completion }

/-- The states `executeAutonomousLoop` passes through, scripted by the
outcome of each pass; an exhausted script below the cap simply ends the
trace with the loop still in flight. -/
def loopTrace (s : LoopState) : List PhaseOutcome → List LoopState
  | [] =>
    if s.maxIterations ≤ s.iteration then [s, forcedCompletion s] else [s]
  | e :: rest =>
    if s.maxIterations ≤ s.iteration then [s, forcedCompletion s]
    else
      match e with
      | PhaseOutcome.shutdown => [s]
      | PhaseOutcome.failure true => s :: loopTrace s rest
      | PhaseOutcome.failure false => [s]
      | PhaseOutcome.success turns =>
        if s.phase = Phase.completion then [s]
        else s :: loopTrace (successState s turns) rest

/-- The edges the claim declares: the forward workflow edges, any state to
`error` on unrecovered failure, and `error` back to a previous phase on
recovery. -/
def claimEdge : Phase → Phase → Bool
  | Phase.planning, Phase.implementation => true
  | Phase.implementation, Phase.testing => true
  | Phase.testing, Phase.critique => true
  | Phase.testing, Phase.completion => true
  | Phase.critique, Phase.implementation => true
  | _, Phase.error => true
  | Phase.error, _ => true
  | _, _ => false

/-- One observed transition is within the claim: either the phase did not
change, or it moved along a declared edge, or it is the forced move to
`completion` taken exactly at the iteration cap; and `completion` is never
left. -/
def allowedStep (a b : LoopState) : Prop :=
  (a.phase = b.phase ∨ claimEdge a.phase b.phase = true ∨
    (b.phase = Phase.completion ∧ a.maxIterations ≤ a.iteration)) ∧
  (a.phase = Phase.completion → b.phase = Phase.completion)

theorem loopTrace_cons : ∀ (evs : List PhaseOutcome) (s : LoopState),
    ∃ t, loopTrace s evs = s :: t := by
  intro evs s
  cases evs with
  | nil =>
    by_cases h : s.maxIterations ≤ s.iteration
    · exact ⟨[forcedCompletion s], by simp [loopTrace, h]⟩
    · exact ⟨[], by simp [loopTrace, h]⟩
  | cons e rest =>
    by_cases h : s.maxIterations ≤ s.iteration
    · exact ⟨[forcedCompletion s], by simp [loopTrace, h]⟩
    · cases e with
      | shutdown => exact ⟨[], by simp [loopTrace, h]⟩
      | failure r =>
        cases r
        · exact ⟨[], by simp [loopTrace, h]⟩
        · exact ⟨loopTrace s rest, by simp [loopTrace, h]⟩
      | success turns =>
        by_cases hph : s.phase = Phase.completion
        · exact ⟨[], by simp [loopTrace, h, hph]⟩
        · exact ⟨loopTrace (successState s turns) rest, by simp [loopTrace, h, hph]⟩

theorem allowedStep_forced (s : LoopState) (h : s.maxIterations ≤ s.iteration) :
    allowedStep s (forcedCompletion s) :=
  ⟨Or.inr (Or.inr ⟨rfl, h⟩), fun _ => rfl⟩

theorem successState_phase (s : LoopState) (turns : List ClaudeTurn) :
    (successState s turns).phase = nextPhaseOnSuccess s.phase turns := rfl

theorem allowedStep_success (s : LoopState) (turns : List ClaudeTurn)
    (hph : s.phase ≠ Phase.completion) :
    allowedStep s (successState s turns) := by
  refine ⟨?_, fun hc => absurd hc hph⟩
  rw [successState_phase]
  cases hp : s.phase
  case planning => exact Or.inr (Or.inl rfl)
  case implementation => exact Or.inr (Or.inl rfl)
  case testing =>
    by_cases hf : hasFailures turns = true
    · have hcr : nextPhaseOnSuccess Phase.testing turns = Phase.critique := by
        simp [nextPhaseOnSuccess, executeTestingPhaseNext, hf]
      rw [hcr]
      exact Or.inr (Or.inl rfl)
    · have hco : nextPhaseOnSuccess Phase.testing turns = Phase.completion := by
        simp [nextPhaseOnSuccess, executeTestingPhaseNext, hf]
      rw [hco]
      exact Or.inr (Or.inl rfl)
  case critique => exact Or.inr (Or.inl rfl)
  case completion => exact absurd hp hph
  case error => exact Or.inl rfl

/-- C1 For any scripted sequence of pass outcomes from any start state,
consecutive states of the loop trace change phase only along the claimed
edges — the workflow edges, any-to-error, error-to-previous — or by the
forced move to `completion` taken exactly when the iteration cap is reached;
and `completion` is terminal. -/
theorem phase_transitions_only_defined_edges :
    ∀ (evs : List PhaseOutcome) (s : LoopState),
    List.Chain' allowedStep (loopTrace s evs) := by
  intro evs
  induction evs with
  | nil =>
    intro s
    by_cases h : s.maxIterations ≤ s.iteration
    · simp only [loopTrace, if_pos h]
      exact List.chain'_cons.mpr ⟨allowedStep_forced s h, List.chain'_singleton _⟩
    · simp only [loopTrace, if_neg h]
      exact List.chain'_singleton _
  | cons e rest ih =>
    intro s
    by_cases h : s.maxIterations ≤ s.iteration
    · simp only [loopTrace, if_pos h]
      exact List.chain'_cons.mpr ⟨allowedStep_forced s h, List.chain'_singleton _⟩
    · simp only [loopTrace, if_neg h]
      cases e with
      | shutdown => exact List.chain'_singleton _
      | failure r =>
        cases r
        · exact List.chain'_singleton _
        · obtain ⟨t, ht⟩ := loopTrace_cons rest s
          have hch := ih s
          rw [ht] at hch ⊢
          exact List.chain'_cons.mpr ⟨⟨Or.inl rfl, fun hc => hc⟩, hch⟩
      | success turns =>
        by_cases hph : s.phase = Phase.completion
        · simp only [if_pos hph]
          exact List.chain'_singleton _
        · simp only [if_neg hph]
          obtain ⟨t, ht⟩ := loopTrace_cons rest (successState s turns)
          have hch := ih (successState s turns)
          rw [ht] at hch ⊢
          exact List.chain'_cons.mpr ⟨allowedStep_success s turns hph, hch⟩
